import Mathlib

set_option maxHeartbeats 1000000
set_option maxRecDepth 100000

/-! # Verification of the ADAPTABLE record codec and UniProt importer

Shallow embedding of src/adaptable.py and src/Unitprot-importer.py.
Python strings are modelled as lists of characters, Python dictionaries
keyed by integers as total functions with default value, and the mutation
of an Entry in place as explicit state passing.  Python slot ids are
modelled as naturals: every id the source ever writes is nonnegative. -/

/-- Python strings, modelled as lists of characters. -/
abbrev Str := List Char

/-- The character list of a Lean string literal. -/
def str (s : String) : Str := s.data

/-- Model of the whitespace characters recognized by Python str.split()
and str.strip() (the ones that can occur in the data handled here). -/
def isWS (c : Char) : Bool := c == ' ' || c == '\t' || c == '\n' || c == '\r'

/-- Worker for pySplit, accumulating the current chunk in reverse. -/
def pySplitAux : Str → Str → List Str
  | [], acc => if acc = [] then [] else [acc.reverse]
  | c :: cs, acc =>
    if isWS c then
      if acc = [] then pySplitAux cs [] else acc.reverse :: pySplitAux cs []
    else
      pySplitAux cs (c :: acc)

/-- Model of Python str.split() without separator: split on runs of
whitespace, discarding empty chunks. -/
def pySplit (l : Str) : List Str := pySplitAux l []

/-- Worker for pySplitOn, accumulating the current chunk in reverse. -/
def pySplitOnAux (sep : Char) : Str → Str → List Str
  | [], acc => [acc.reverse]
  | c :: cs, acc =>
    if c = sep then acc.reverse :: pySplitOnAux sep cs []
    else pySplitOnAux sep cs (c :: acc)

/-- Model of Python str.split(sep) for a one-character separator: keeps
empty chunks. -/
def pySplitOn (sep : Char) (l : Str) : List Str := pySplitOnAux sep l []

/-- Drop the trailing characters satisfying p. -/
def dropTrailing (p : Char → Bool) (l : Str) : Str := (l.reverse.dropWhile p).reverse

/-- Model of Python str.strip() without arguments: remove whitespace from
both ends. -/
def pyStrip (l : Str) : Str := dropTrailing isWS (l.dropWhile isWS)

/-- Model of Python str.strip(" "): remove space characters from both
ends. -/
def stripSpaces (l : Str) : Str :=
  dropTrailing (fun c => c == ' ') (l.dropWhile (fun c => c == ' '))

/-- The Python exceptions raised by the modelled code. -/
inductive PyErr where
  | indexError
  | valueError
  | keyError
deriving DecidableEq, Repr

/-- adaptable.Entry: the sequence plus the defaultdict(list) property
table, modelled as a total function from slot id to value list (an absent
key reads as the default []). -/
structure Entry where
  sequence : Str
  properties : Nat → List Str

/-- Entry.nproperties_used. -/
def Entry.nproperties_used : Nat := 65

/-- Entry._defined_properties: the fixed 65-slot schema table. -/
def defined_properties : List (Nat × Str) := [
  (1, str "ID"),
  (2, str "sequence"),
  (3, str "name"),
  (4, str "source"),
  (5, str "Family"),
  (6, str "gene"),
  (7, str "stereo"),
  (8, str "N_terminus"),
  (9, str "C_terminus"),
  (10, str "PTM"),
  (11, str "cyclic"),
  (12, str "target"),
  (13, str "synthetic"),
  (14, str "antimicrobial"),
  (15, str "antibacterial"),
  (16, str "antigram_pos"),
  (17, str "antigram_neg"),
  (18, str "antifungal"),
  (19, str "antiyeast"),
  (20, str "antiviral"),
  (21, str "antiprotozoal"),
  (22, str "antiparasitic"),
  (23, str "antiplasmodial"),
  (24, str "antitrypanosomic"),
  (25, str "antileishmania"),
  (26, str "insecticidal"),
  (27, str "anticancer"),
  (28, str "antitumor"),
  (29, str "cell_line"),
  (30, str "tissue"),
  (31, str "cancer_type"),
  (32, str "anticancer_activity"),
  (33, str "anticancer_activity_test"),
  (34, str "antiangiogenic"),
  (35, str "toxic"),
  (36, str "cytotoxic"),
  (37, str "hemolytic"),
  (38, str "hemolytic_activity"),
  (39, str "hemolytic_activity_test"),
  (40, str "RBC_source"),
  (41, str "cell_cell"),
  (42, str "hormone"),
  (43, str "quorum_sensing"),
  (44, str "immunomodulant"),
  (45, str "antihypertensive"),
  (46, str "drug_delivery"),
  (47, str "cell_penetrating"),
  (48, str "tumor_homing"),
  (49, str "blood_brain"),
  (50, str "antioxidant"),
  (51, str "antiproliferative"),
  (52, str "DSSP"),
  (53, str "pdb"),
  (54, str "experim_structure"),
  (55, str "PMID"),
  (56, str "taxonomy"),
  (57, str "all_organisms"),
  (58, str "activity_viral"),
  (59, str "activity_viral_test"),
  (60, str "solubility"),
  (61, str "activity"),
  (62, str "activity_test"),
  (63, str "ribosomal"),
  (64, str "experimental"),
  (65, str "biofilm")]

/-- Entry._properties_by_name: slot name to slot id, built by zipping the
values of the schema table with its keys. -/
def properties_by_name : List (Str × Nat) :=
  defined_properties.map (fun p => (p.2, p.1))

/-- Lookup of a slot id by name in Entry._properties_by_name. -/
def idOfName (name : Str) : Option Nat := properties_by_name.lookup name

/-- One serialized header field of Entry.to_fasta: "_" for an empty slot,
otherwise the ";"-joined value list with a trailing ";" appended. -/
def fieldStr (l : List Str) : Str :=
  if l = [] then str "_" else List.intercalate (str ";") l ++ str ";"

/-- Entry.to_fasta: the ">" marker, one field plus a space per slot 1..65,
the trailing spaces stripped, then a newline, the sequence and a final
newline. -/
def Entry.to_fasta (e : Entry) : Str :=
  stripSpaces
      ((List.range Entry.nproperties_used).foldl
        (fun fasta i => fasta ++ fieldStr (e.properties (i + 1)) ++ str " ")
        (str ">"))
    ++ str "\n" ++ e.sequence ++ str "\n"

/-- Entry.as_human_readable. -/
def Entry.as_human_readable (e : Entry) : Str :=
  (List.range Entry.nproperties_used).foldl
    (fun content i =>
      content ++ str "  -> " ++ ((defined_properties.lookup (i + 1)).getD [])
        ++ str ": " ++ List.intercalate (str "; ") (e.properties (i + 1)) ++ str "\n")
    (str "ADAPTABLE Entry:\n")

/-- The value pieces contributed by one header field: nothing for "_", and
otherwise the ";"-split chunks with the empty ones discarded. -/
def piecesOf (value : Str) : List Str :=
  if value = str "_" then [] else (pySplitOn ';' value).filter (fun v => v != [])

/-- One enumerate step of Entry.get_parameters_from_fasta: header field
number propid (0-based) appends its pieces to slot propid + 1; a field
equal to "_" is skipped. -/
def applyToken (e : Entry) (propid : Nat) (value : Str) : Entry :=
  if value = str "_" then e
  else
    { e with properties := fun j =>
        if j = propid + 1 then e.properties j ++ piecesOf value else e.properties j }

/-- Entry.get_parameters_from_fasta: raises IndexError on an empty line
(line[0] is out of range), ValueError when the line does not start with
">", and otherwise splits the rest of the line on whitespace and feeds
each field to its slot. -/
def Entry.get_parameters_from_fasta (e : Entry) (line : Str) : Except PyErr Entry :=
  match line with
  | [] => .error .indexError
  | c :: rest =>
    if c ≠ '>' then .error .valueError
    else .ok ((pySplit rest).enum.foldl (fun e p => applyToken e p.1 p.2) e)

/-- Entry.__init__: start from an empty property table, parse the optional
FASTA comment, then overwrite slot 2 with [sequence]. -/
def Entry.new (sequence : Str) (fasta_comment : Option Str) : Except PyErr Entry :=
  let e : Entry := { sequence := sequence, properties := fun _ => [] }
  let parsed : Except PyErr Entry :=
    match fasta_comment with
    | none => .ok e
    | some line => e.get_parameters_from_fasta line
  parsed.map fun e =>
    { e with properties := fun j => if j = 2 then [sequence] else e.properties j }

/-- Entry.__getitem__: an integer key reads the defaultdict directly and
never fails; a name key raises KeyError when the name is not in the
schema table. -/
def Entry.getItem (e : Entry) (item : Nat ⊕ Str) : Except PyErr (List Str) :=
  match item with
  | .inl i => .ok (e.properties i)
  | .inr name =>
    match idOfName name with
    | some i => .ok (e.properties i)
    | none => .error .keyError

/-- The error component of a constructor or accessor result. -/
def errOf {α : Type} : Except PyErr α → Option PyErr
  | .error e => some e
  | .ok _ => none

/-- Decoding a two-line record text: the first line is the FASTA header,
the second line the sequence, fed to Entry(sequence_line, header_line). -/
def decodeText (text : Str) : Except PyErr Entry :=
  let lines := pySplitOn '\n' text
  Entry.new (lines.getD 1 []) (some (lines.getD 0 []))

/-! ## adaptable.Library -/

/-- adaptable.Library state: the OrderedDict keyed by sequence and the
independent insertion-order list. -/
structure LibState where
  entries : List (Str × Entry)
  entries_list : List Entry

/-- The character replacement table of Library.read. -/
def character_replacements : List (Str × Str) := [
  (str "\\xa0", str " "),
  (str "\\x96", str " "),
  (str "\\xb5", str "µ"),
  (str "\\xec", str "µ"),
  (str "\\xb1", str "±")]

/-- Fuel-driven worker for replaceSub; the fuel starts at the length of
the text, which suffices because every step consumes at least one
character when the pattern is nonempty. -/
def replaceGo (old new : Str) : Nat → Str → Str
  | _, [] => []
  | 0, l => l
  | fuel + 1, c :: cs =>
    if old != [] && old.isPrefixOf (c :: cs) then
      new ++ replaceGo old new fuel ((c :: cs).drop old.length)
    else
      c :: replaceGo old new fuel cs

/-- Model of Python str.replace(old, new): replace the non-overlapping
occurrences of old from the left. -/
def replaceSub (old new l : Str) : Str := replaceGo old new l.length l

/-- One line of Library.read preprocessing: strip, then the character
replacements (the warning printed for a remaining backslash goes to
stdout and carries no state). -/
def cleanLine (l : Str) : Str :=
  character_replacements.foldl (fun line p => replaceSub p.1 p.2 line) (pyStrip l)

/-- OrderedDict insertion: replace the value in place when the key
exists, append a new binding otherwise. -/
def odInsert (entries : List (Str × Entry)) (k : Str) (e : Entry) :
    List (Str × Entry) :=
  if (entries.lookup k).isSome then
    entries.map (fun p => if p.1 = k then (k, e) else p)
  else entries ++ [(k, e)]

/-- The Library.read loop over the lines of the stream; fasta_comment is
the pending header.  A blank line is skipped, a header line replaces the
pending header, a non-header line with a pending header forms an entry,
and a pending header left at end of stream is dropped without any
error. -/
def readLines : List Str → Option Str → LibState → Except PyErr LibState
  | [], _, st => .ok st
  | l :: rest, fasta_comment, st =>
    let line := cleanLine l
    if h : line = [] then readLines rest fasta_comment st
    else if line.head h = '>' then readLines rest (some line) st
    else
      match fasta_comment with
      | none => readLines rest fasta_comment st
      | some c =>
        match Entry.new line (some c) with
        | .error e => .error e
        | .ok entry =>
          readLines rest none
            { entries := odInsert st.entries line entry,
              entries_list := st.entries_list ++ [entry] }

/-- Library.read on a list of stream lines, starting from an empty
library. -/
def Library.read (lines : List Str) : Except PyErr LibState :=
  readLines lines none { entries := [], entries_list := [] }

/-! ## The UniProt importer (src/Unitprot-importer.py) -/

/-- An XML element as exposed by lxml: tag (possibly namespace
qualified), attributes, text and children.  The text is modelled as a
character list. -/
inductive XElem where
  | mk (tag : Str) (attrs : List (Str × Str)) (text : Str) (children : List XElem)

def XElem.tag : XElem → Str
  | .mk t _ _ _ => t

def XElem.attrs : XElem → List (Str × Str)
  | .mk _ a _ _ => a

def XElem.text : XElem → Str
  | .mk _ _ t _ => t

def XElem.children : XElem → List XElem
  | .mk _ _ _ c => c

/-- elem.get(name): attribute lookup, None when the attribute is
absent. -/
def XElem.get (e : XElem) (name : Str) : Option Str := e.attrs.lookup name

/-- Python string formatting of an optional value: None prints as
"None". -/
def pyFmt : Option Str → Str
  | none => str "None"
  | some s => s

/-- get_tag: ET.QName(elem.tag).localname, the tag with a leading
namespace enclosed in braces removed. -/
def get_tag (e : XElem) : Str :=
  match e.tag with
  | '\x7b' :: rest => (rest.dropWhile (fun c => c != '\x7d')).tail
  | t => t

mutual
/-- Model of lxml ET.tounicode: serialize the element back to markup. -/
def xserialize : XElem → Str
  | .mk tag attrs text children =>
    str "<" ++ tag
      ++ (attrs.map (fun p => str " " ++ p.1 ++ str "=\x22" ++ p.2 ++ str "\x22")).flatten
      ++ str ">" ++ text ++ xserializeList children ++ str "</" ++ tag ++ str ">"

/-- Serialization of a list of sibling elements. -/
def xserializeList : List XElem → Str
  | [] => []
  | e :: es => xserialize e ++ xserializeList es
end

/-- BIOPROPERTIES_UNIPROT_KEYWORDS, in source (dict insertion) order. -/
def BIOPROPERTIES_UNIPROT_KEYWORDS : List (Str × List Str) := [
  (str "antimicrobial", [str "KW-0929", str "KW-0081", str "KW-0044"]),
  (str "antibacterial", [str "KW-0081"]),
  (str "antifungal", [str "KW-0295"]),
  (str "antiviral", [str "KW-0930"]),
  (str "antitumor", [str "KW-0043"])]

/-- The heuristic free-text KEYWORDS table of
populate_entry_using_uniprot_xml, in source order. -/
def KEYWORDS : List (Str × List Str) := [
  (str "antimicrobial", [str "microbial"]),
  (str "antigram_pos", [str "gram-positive"]),
  (str "antigram_neg", [str "gram-negative"]),
  (str "antibacterial", [str "bacterial"]),
  (str "antiviral", [str "viral"]),
  (str "anticancer", [str "cancer", str "tumor", str "anticancer", str "antitumor"]),
  (str "antiprotozoal", [str "protozoa"]),
  (str "antiplasmodial", [str "plasmodi"]),
  (str "antiparasitic", [str "parasit"]),
  (str "antitrypanosomic", [str "trypanosom"]),
  (str "antileishmania", [str "leishman"]),
  (str "insecticidal", [str "insecticid"]),
  (str "toxic", [str "toxic"]),
  (str "cytotoxic", [str "cytotoxic"]),
  (str "antiangiogenic", [str "antiangiogen"]),
  (str "hemolytic", [str "hemolytic"]),
  (str "pdb", [str "pdb"]),
  (str "PMID", [str "PMID"]),
  (str "DSSP", [str "DSSP"])]

/-- The dbReference database types explicitly ignored by the importer. -/
def ignored_dbtypes : List Str := [
  str "GO", str "InterPro", str "EC", str "EMBL", str "EnsemblBacteria",
  str "OrthoDB", str "Proteomes", str "RefSeq", str "PRINTS", str "PATRIC",
  str "BioCyc", str "GeneID", str "Gene3D", str "PANTHER", str "SMART",
  str "UniPathway", str "KEGG", str "HOGENOM", str "OMA", str "UniGene",
  str "MGI", str "UCSC", str "Bgee", str "IntAct", str "PeptideAtlas",
  str "PRIDE", str "FlyBase", str "eggNOG", str "PDBsum", str "PIR",
  str "STRING", str "PaxDb", str "HOVERGEN", str "TCDB", str "MINT",
  str "EvolutionaryTrace", str "ArachnoServer", str "CAZy", str "Ensembl",
  str "PMAP-CutDB", str "MaizeGDB", str "iPTMnet", str "KO",
  str "Genevisible", str "ExpressionAtlas", str "SABIO-RK", str "Allergome",
  str "PRO", str "DisProt", str "InParanoid", str "Araport", str "ConoServer"]

/-- Model of the Python substring test pat in s. -/
def isSubstr (pat s : Str) : Bool := s.tails.any (fun t => pat.isPrefixOf t)

/-- Membership of a possibly absent attribute value in a list of string
literals (Python in: None is never a member). -/
def optMem (o : Option Str) (l : List Str) : Bool :=
  match o with
  | none => false
  | some s => l.contains s

/-- The state threaded through populate_entry_using_uniprot_xml: the
Entry being populated, the current entry id, the potential-property
table (an insertion-ordered defaultdict(list)), the warnings written to
the logger, and an error flag modelling a raised Python exception. -/
structure PState where
  entry : Entry
  entry_id : Str
  potential_properties : List (Str × List Str)
  warnings : List Str
  err : Bool

/-- The loop state at the start of populate_entry_using_uniprot_xml. -/
def initState (e : Entry) : PState :=
  { entry := e, entry_id := str "UNKNOWN", potential_properties := [],
    warnings := [], err := false }

/-- entry[name].append(value) for a schema name (an unknown name would
raise KeyError in Python; every name the importer uses is in the schema
table, so that path is modelled as a no-op). -/
def Entry.appendName (e : Entry) (name : Str) (v : Str) : Entry :=
  match idOfName name with
  | some i =>
    { e with properties := fun j =>
        if j = i then e.properties j ++ [v] else e.properties j }
  | none => e

/-- len(entry[name]) for a schema name. -/
def Entry.lenName (e : Entry) (name : Str) : Nat :=
  match idOfName name with
  | some i => (e.properties i).length
  | none => 0

/-- warning_cry: log that an element was ignored but could be
interesting. -/
def warning_cry (s : PState) (elem : XElem) (element_type : Str) : PState :=
  { s with warnings := (s.warnings ++
      [str "Uniprot Entry \x27" ++ s.entry_id
        ++ str "\x27 -> the following " ++ element_type
        ++ str " is ignored but could be interesting: " ++ xserialize elem]) }

/-- potential_properties[flat_elem].append(bioproperty) on the insertion
ordered defaultdict(list). -/
def ppAppend (pp : List (Str × List Str)) (key : Str) (v : Str) :
    List (Str × List Str) :=
  if (pp.lookup key).isSome then
    pp.map (fun p => if p.1 = key then (p.1, p.2 ++ [v]) else p)
  else pp ++ [(key, [v])]

/-- One pair of the curated keyword dispatch: when the keyword id is one
of the codes of the bioproperty and the property value list is still
empty, append the property name as its value. -/
def kwStep (kwid : Option Str) (e : Entry) (p : Str × List Str) : Entry :=
  if optMem kwid p.2 then
    (if e.lenName p.1 = 0 then e.appendName p.1 p.1 else e)
  else e

/-- The dbReference branch: the ignore list, the rename table appending
to slot ID, PDB appending to slot pdb, and a warning for anything
else. -/
def dbReferenceStep (s : PState) (elem : XElem) : PState :=
  let dbtype := elem.get (str "type")
  if optMem dbtype ignored_dbtypes then s
  else if dbtype = some (str "SUPFAM") then
    { s with entry := s.entry.appendName (str "ID") (str "supfam" ++ pyFmt (elem.get (str "id"))) }
  else if dbtype = some (str "Pfam") then
    { s with entry := s.entry.appendName (str "ID") (str "pfam" ++ pyFmt (elem.get (str "id"))) }
  else if dbtype = some (str "ProteinModelPortal") then
    { s with entry := s.entry.appendName (str "ID") (str "pmp" ++ pyFmt (elem.get (str "id"))) }
  else if dbtype = some (str "TIGRFAMs") then
    { s with entry := s.entry.appendName (str "ID") (str "tigrfams" ++ pyFmt (elem.get (str "id"))) }
  else if dbtype = some (str "HAMAP") then
    { s with entry := s.entry.appendName (str "ID") (str "hamap" ++ pyFmt (elem.get (str "id"))) }
  else if dbtype = some (str "PROSITE") then
    { s with entry := s.entry.appendName (str "ID") (str "prosite" ++ pyFmt (elem.get (str "id"))) }
  else if dbtype = some (str "PIRSF") then
    { s with entry := s.entry.appendName (str "ID") (str "pirsf" ++ pyFmt (elem.get (str "id"))) }
  else if dbtype = some (str "CDD") then
    { s with entry := s.entry.appendName (str "ID") (str "cdd" ++ pyFmt (elem.get (str "id"))) }
  else if dbtype = some (str "ProDom") then
    { s with entry := s.entry.appendName (str "ID") (str "prodom" ++ pyFmt (elem.get (str "id"))) }
  else if dbtype = some (str "SMR") then
    { s with entry := s.entry.appendName (str "ID") (str "smr" ++ pyFmt (elem.get (str "id"))) }
  else if dbtype = some (str "PDB") then
    { s with entry := s.entry.appendName (str "pdb") (pyFmt (elem.get (str "id"))) }
  else
    warning_cry s elem (str "Database (" ++ pyFmt dbtype ++ str ")")

/-- Processing of one child element of the UniProt entry (one iteration
of the main loop of populate_entry_using_uniprot_xml).  An IndexError
from a missing child sets the error flag and, as in Python, stops all
further processing. -/
def stepElem (s : PState) (elem : XElem) : PState :=
  if s.err then s else
  let tag := get_tag elem
  if tag = str "accession" then
    { s with entry := s.entry.appendName (str "ID") (str "uniprot" ++ elem.text),
             entry_id := elem.text }
  else if tag = str "gene" then
    match elem.children.head? with
    | none => { s with err := true }
    | some c => { s with entry := s.entry.appendName (str "gene") c.text }
  else if tag = str "name" then
    { s with entry := s.entry.appendName (str "name") elem.text }
  else if tag = str "protein" then
    match elem.children.head? with
    | none => { s with err := true }
    | some c =>
      { s with entry := (c.children.foldl
          (fun e sub => e.appendName (str "name") sub.text) s.entry) }
  else if tag = str "organism" then
    match elem.children.head? with
    | none => { s with err := true }
    | some c0 =>
      let s1 := { s with entry := s.entry.appendName (str "source") c0.text }
      match elem.children.get? 1 with
      | none => { s1 with err := true }
      | some c1 =>
        { s1 with entry := (s1.entry.appendName (str "taxonomy")
            (str "NCBI:" ++ pyFmt (c1.get (str "id")))) }
  else if tag = str "dbReference" then
    dbReferenceStep s elem
  else if tag = str "keyword" then
    { s with entry :=
        (BIOPROPERTIES_UNIPROT_KEYWORDS.foldl (kwStep (elem.get (str "id"))) s.entry) }
  else
    let flat_elem := (xserialize elem).map Char.toLower
    { s with potential_properties :=
        (KEYWORDS.foldl
          (fun pp p =>
            if p.2.any (fun kw => isSubstr kw flat_elem) then
              ppAppend pp flat_elem p.1
            else pp)
          s.potential_properties) }

/-- The final loop over the collected potential properties: the warnings
accumulated so far plus one warning per potential property whose slot is
still empty, and the log_entry flag telling whether any such warning
fired.  This loop reads the Entry but never writes it. -/
def finalWarnings (s : PState) : List Str × Bool :=
  s.potential_properties.foldl
    (fun (acc : List Str × Bool) pr =>
      pr.2.foldl
        (fun acc bioproperty =>
          if s.entry.lenName bioproperty = 0 then
            let message :=
              if bioproperty = str "DSSP" ∨ bioproperty = str "pdb" then
                str "structural information"
              else if bioproperty = str "PMID" then str "PMID"
              else str "information about " ++ bioproperty ++ str " properties"
            (acc.1 ++ [str "Entry " ++ s.entry_id ++ str " -> Potential "
                ++ message ++ str " ignored but contained in the following element: "
                ++ pr.1],
              true)
          else acc)
        acc)
    (s.warnings, false)

/-- The final check of populate_entry_using_uniprot_xml: store the
warnings of the final loop and, when any fired, dump the whole entry as
one more warning.  Skipped entirely when an exception was raised. -/
def finalCheck (s : PState) : PState :=
  if s.err then s else
  let s1 := { s with warnings := (finalWarnings s).1 }
  if (finalWarnings s).2 then
    { s1 with warnings := (s1.warnings ++
        [str "Entry " ++ s1.entry_id ++ str " content:\n" ++ s1.entry.as_human_readable]) }
  else s1

/-- populate_entry_using_uniprot_xml: walk the direct children of the
document, then run the final potential-property check.  The result
carries the mutated Entry and the logged warnings. -/
def populate_entry_using_uniprot_xml (entry : Entry) (tree : List XElem) : PState :=
  finalCheck (tree.foldl stepElem (initState entry))

/-! ## Derived definitions used by the statements -/

/-- The header fields of an Entry in slot order, as emitted by
Entry.to_fasta. -/
def fieldsOf (e : Entry) : List Str :=
  (List.range Entry.nproperties_used).map (fun i => fieldStr (e.properties (i + 1)))

/-- The slot ids reachable through structured dispatch (ID, name, source,
gene, pdb, taxonomy) or curated keyword dispatch (antimicrobial,
antibacterial, antifungal, antiviral, antitumor). -/
def mutableSlots : List Nat := [1, 3, 4, 6, 14, 15, 18, 20, 28, 53, 56]

/-- The tags handled by structured or curated dispatch; every other tag
falls to the heuristic free-text scan. -/
def structuredTags : List Str :=
  [str "accession", str "gene", str "name", str "protein", str "organism",
   str "dbReference", str "keyword"]

/-- The 65 defined slot names. -/
def definedNames : List Str := defined_properties.map (fun p => p.2)

/-- A freshly constructed Entry with no property values. -/
def emptyEntry : Entry := { sequence := str "AA", properties := fun _ => [] }

/-- An Entry whose slot-1 value has an inner space but no semicolon and
no leading or trailing whitespace. -/
def innerSpaceEntry : Entry :=
  { sequence := str "A",
    properties := fun j =>
      if j = 1 then [str "a b"] else if j = 2 then [str "A"] else [] }

/-- An Entry with whitespace-free, semicolon-free, non-empty values. -/
def goodEntry : Entry :=
  { sequence := str "MK",
    properties := fun j =>
      if j = 1 then [str "uniprotP1"] else if j = 2 then [str "MK"] else [] }

/-- A keyword element carrying the curated antibacterial code KW-0081. -/
def kwElem81 : XElem := .mk (str "keyword") [(str "id", str "KW-0081")] [] []

/-- A keyword element whose id matches no curated code. -/
def kwElem9999 : XElem := .mk (str "keyword") [(str "id", str "KW-9999")] [] []

/-- A free-text element whose tag is outside the structured set and whose
text matches heuristic keywords. -/
def commentElem : XElem := .mk (str "comment") [] (str "a toxic peptide") []

/-- A FASTA header line with 66 whitespace-separated fields, the last one
not a placeholder. -/
def hdr66 : Str := str ">" ++ (List.replicate 65 (str " _")).flatten ++ str " x"

/-! ## Helper lemmas on the decoder -/

theorem applyToken_properties (e : Entry) (i : Nat) (v : Str) (j : Nat) :
    (applyToken e i v).properties j =
      if j = i + 1 then e.properties j ++ piecesOf v else e.properties j := by
  unfold applyToken
  by_cases hv : v = str "_"
  · simp [hv, piecesOf]
  · simp [hv]

theorem applyToken_sequence (e : Entry) (i : Nat) (v : Str) :
    (applyToken e i v).sequence = e.sequence := by
  unfold applyToken
  split <;> rfl

theorem applyFold_properties :
    ∀ (toks : List Str) (n : Nat) (e : Entry) (j : Nat),
      ((toks.enumFrom n).foldl (fun e p => applyToken e p.1 p.2) e).properties j =
        if n + 1 ≤ j ∧ j ≤ n + toks.length then
          e.properties j ++ piecesOf (toks.getD (j - n - 1) [])
        else e.properties j := by
  intro toks
  induction toks with
  | nil =>
    intro n e j
    have h : ¬(n + 1 ≤ j ∧ j ≤ n) := by omega
    simp only [List.enumFrom, List.foldl_nil, List.length_nil, Nat.add_zero]
    rw [if_neg h]
  | cons t ts ih =>
    intro n e j
    rw [List.enumFrom_cons, List.foldl_cons, ih, applyToken_properties]
    simp only [List.length_cons]
    by_cases hj : j = n + 1
    · subst hj
      rw [if_neg (by omega : ¬(n + 1 + 1 ≤ n + 1 ∧ n + 1 ≤ n + 1 + ts.length)),
        if_pos (rfl : n + 1 = n + 1),
        if_pos (by omega : n + 1 ≤ n + 1 ∧ n + 1 ≤ n + (ts.length + 1))]
      have h0 : n + 1 - n - 1 = 0 := by omega
      rw [h0, List.getD_cons_zero]
    · rw [if_neg hj]
      by_cases hc : n + 1 + 1 ≤ j ∧ j ≤ n + 1 + ts.length
      · rw [if_pos hc, if_pos (by omega : n + 1 ≤ j ∧ j ≤ n + (ts.length + 1))]
        have hidx : j - n - 1 = (j - n - 2) + 1 := by omega
        rw [hidx, List.getD_cons_succ]
        have h3 : j - (n + 1) - 1 = j - n - 2 := by omega
        rw [h3]
      · rw [if_neg hc, if_neg (by omega : ¬(n + 1 ≤ j ∧ j ≤ n + (ts.length + 1)))]

theorem applyFold_sequence :
    ∀ (ps : List (Nat × Str)) (e : Entry),
      (ps.foldl (fun e p => applyToken e p.1 p.2) e).sequence = e.sequence := by
  intro ps
  induction ps with
  | nil => intro e; rfl
  | cons p t ih => intro e; rw [List.foldl_cons, ih, applyToken_sequence]

/-- Closed form of Entry.__init__ on a header line starting with ">": the
construction succeeds, slot 2 holds [sequence], every other slot j in
range of the whitespace-split field list receives the pieces of field
j - 1, and every remaining slot is unset. -/
theorem EntryNew_spec (seq rest : Str) :
    ∃ d, Entry.new seq (some ('>' :: rest)) = .ok d ∧ d.sequence = seq ∧
      ∀ j : Nat, d.properties j =
        if j = 2 then [seq]
        else if 1 ≤ j ∧ j ≤ (pySplit rest).length then
          piecesOf ((pySplit rest).getD (j - 1) [])
        else [] := by
  refine ⟨{ sequence := (((pySplit rest).enum.foldl (fun e p => applyToken e p.1 p.2) (⟨seq, fun _ => []⟩ : Entry)).sequence), properties := (fun j => if j = 2 then [seq] else ((pySplit rest).enum.foldl (fun e p => applyToken e p.1 p.2) (⟨seq, fun _ => []⟩ : Entry)).properties j) }, rfl, ?_, ?_⟩
  · exact applyFold_sequence ((pySplit rest).enum) ⟨seq, fun _ => []⟩
  · intro j
    by_cases hj : j = 2
    · simp [hj]
    · show (if j = 2 then [seq] else _) = _
      rw [if_neg hj, if_neg hj]
      have hfold := applyFold_properties (pySplit rest) 0 ⟨seq, fun _ => []⟩ j
      rw [show (pySplit rest).enum = List.enumFrom 0 (pySplit rest) from rfl, hfold]
      by_cases hc : 1 ≤ j ∧ j ≤ (pySplit rest).length
      · rw [if_pos (by omega : 0 + 1 ≤ j ∧ j ≤ 0 + (pySplit rest).length),
          if_pos hc]
        show [] ++ _ = _
        rw [List.nil_append]
        have h1 : j - 0 - 1 = j - 1 := by omega
        rw [h1]
      · rw [if_neg (by omega : ¬(0 + 1 ≤ j ∧ j ≤ 0 + (pySplit rest).length)),
          if_neg hc]

/-! ## C5: decode field handling -/

/-- C5 counterexample: the claim says fields beyond the 65th are ignored
and that a decoded Entry holds values only for slot ids 1..65; but
decoding a header with 66 whitespace-separated fields whose 66th field is
"x" stores ["x"] under slot id 66, observable through the integer form of
entry[item]. -/
theorem c5_counterexample :
    (Entry.new (str "AA") (some hdr66)).toOption.map (fun d => d.properties 66)
        = some [str "x"]
      ∧ some [str "x"] ≠ some ([] : List Str) := by
  constructor
  · decide
  · decide

/-- C5 amended: decode splits the text after ">" on whitespace and feeds
EVERY field to a slot: field number k (0-based) populates slot k + 1,
with no cap at 65 fields, so a header with more than 65 fields stores the
extra fields under slot ids above 65; a field equal to "_" contributes
nothing, missing trailing fields leave their slots unset, and slot 2 is
overwritten with [sequence]. -/
theorem c5_decode_fields (seq rest : Str) :
    ∃ d, Entry.new seq (some ('>' :: rest)) = .ok d ∧ d.sequence = seq ∧
      ∀ j : Nat, d.properties j =
        if j = 2 then [seq]
        else if 1 ≤ j ∧ j ≤ (pySplit rest).length then
          piecesOf ((pySplit rest).getD (j - 1) [])
        else [] :=
  EntryNew_spec seq rest

/-! ## C4: the concrete re-encode scenario -/

/-- C4 counterexample: decoding header "> _ _ _" with sequence "AA" and
re-encoding does NOT reproduce the two input lines byte for byte. -/
theorem c4_counterexample :
    (Entry.new (str "AA") (some (str "> _ _ _"))).toOption.map Entry.to_fasta
      ≠ some (str "> _ _ _\nAA\n") := by
  decide

/-- C4 amended: decoding header "> _ _ _" with sequence "AA" and
re-encoding yields the full 65-field header ">_ AA;" followed by 63
further "_" fields (slot 2 was auto-populated with the sequence and the
encoder always emits all 65 slots, with no space between ">" and the
first field), then the sequence line "AA". -/
theorem c4_reencode_exact :
    (Entry.new (str "AA") (some (str "> _ _ _"))).toOption.map Entry.to_fasta
      = some (str ">_ AA;" ++ (List.replicate 63 (str " _")).flatten ++ str "\nAA\n") := by
  decide

/-! ## C8: decode error behaviour -/

/-- C8 counterexample: on the empty header line the constructor fails
with IndexError (line[0] is out of range), not with the MalformedRecord
ValueError that the claim requires for every line not starting with
">". -/
theorem c8_counterexample :
    errOf (Entry.new (str "AA") (some (str ""))) = some PyErr.indexError
      ∧ errOf (Entry.new (str "AA") (some (str ""))) ≠ some PyErr.valueError := by
  constructor
  · decide
  · decide

/-- C8 amended: construction from a header line fails with the
MalformedRecord ValueError exactly when the line is non-empty and does
not start with ">"; the empty line instead fails with IndexError; and
construction succeeds exactly when the line starts with ">". -/
theorem c8_error_characterization (seq line : Str) :
    (errOf (Entry.new seq (some line)) = some PyErr.valueError
        ↔ line ≠ [] ∧ line.head? ≠ some '>')
    ∧ (errOf (Entry.new seq (some line)) = some PyErr.indexError ↔ line = [])
    ∧ (errOf (Entry.new seq (some line)) = none ↔ line.head? = some '>') := by
  cases line with
  | nil =>
    refine ⟨?_, ?_, ?_⟩ <;>
      simp [Entry.new, Entry.get_parameters_from_fasta, errOf, Except.map]
  | cons c rest =>
    by_cases hc : c = '>'
    · subst hc
      refine ⟨?_, ?_, ?_⟩ <;>
        simp [Entry.new, Entry.get_parameters_from_fasta, errOf, Except.map]
    · refine ⟨?_, ?_, ?_⟩ <;>
        simp [Entry.new, Entry.get_parameters_from_fasta, errOf, Except.map, hc]

/-! ## C9: slot access -/

theorem lookup_isSome_iff (l : List (Str × Nat)) (k : Str) :
    (l.lookup k).isSome ↔ k ∈ l.map Prod.fst := by
  induction l with
  | nil => simp [List.lookup]
  | cons p t ih =>
    cases p with
    | mk a b =>
      by_cases h : k = a
      · subst h
        simp [List.lookup]
      · have hb : (k == a) = false := beq_eq_false_iff_ne.mpr h
        simp [List.lookup, hb, ih, h]

/-- C9 counterexample: the claim says access by an integer id outside
1..65 fails with UnknownSlot, but entry[66] on a fresh Entry succeeds and
returns the empty default list. -/
theorem c9_counterexample :
    Entry.getItem emptyEntry (Sum.inl 66) = .ok [] := rfl

/-- C9 amended: access by integer id NEVER fails, whatever the id: it
reads the defaultdict directly and returns that id's value list (the
empty list for any id that was never written, including 0 and ids above
65).  Access by name fails, with the KeyError carrying "No such
property", exactly when the name is not one of the 65 defined slot
names, and returns the named slot's value list otherwise. -/
theorem c9_getitem_characterization :
    (∀ (e : Entry) (n : Nat), Entry.getItem e (Sum.inl n) = .ok (e.properties n))
    ∧ (∀ (e : Entry) (name : Str),
        (Entry.getItem e (Sum.inr name) = .error PyErr.keyError ↔ name ∉ definedNames)
        ∧ (name ∈ definedNames →
            Entry.getItem e (Sum.inr name) = .ok (e.properties ((idOfName name).getD 0)))) := by
  constructor
  · intro e n; rfl
  · intro e name
    have hnames : properties_by_name.map Prod.fst = definedNames := by decide
    have hiff : (idOfName name).isSome ↔ name ∈ definedNames := by
      rw [idOfName, lookup_isSome_iff, hnames]
    constructor
    · rw [Entry.getItem]
      cases hv : idOfName name with
      | none =>
        simp only [hv]
        have : ¬(idOfName name).isSome := by simp [hv]
        rw [hiff] at this
        simp [this]
      | some i =>
        simp only [hv]
        have : (idOfName name).isSome := by simp [hv]
        rw [hiff] at this
        simp [this]
    · intro hmem
      have hsome : (idOfName name).isSome := hiff.mpr hmem
      obtain ⟨i, hi⟩ := Option.isSome_iff_exists.mp hsome
      rw [Entry.getItem]
      simp [hi]

theorem c9_getitem_characterization_witness :
    Entry.getItem emptyEntry (Sum.inr (str "gene")) = .ok (emptyEntry.properties 6) :=
  (c9_getitem_characterization.2 emptyEntry (str "gene")).2 (by decide)

/-! ## C3: Library.read on malformed streams -/

theorem readLines_nil (pending : Option Str) (st : LibState) :
    readLines [] pending st = .ok st := rfl

/-- A line whose cleaned form starts with ">" only replaces the pending
header. -/
theorem readLines_cons_header (l : Str) (rest : List Str) (pending : Option Str)
    (st : LibState) (hh : (cleanLine l).head? = some '>') :
    readLines (l :: rest) pending st = readLines rest (some (cleanLine l)) st := by
  have hne : cleanLine l ≠ [] := by
    intro hc
    rw [hc] at hh
    simp at hh
  have hhead : (cleanLine l).head hne = '>' := by
    have he := List.head?_eq_head hne
    rw [he] at hh
    exact Option.some_inj.mp hh
  simp only [readLines]
  rw [dif_neg hne, if_pos hhead]

/-- C3 counterexample: on the stream ">A", ">B", "AA" (a header line
immediately followed by another header line) Library.read completes
without any error, producing exactly one entry, decoded from the second
header: the claim requires a MalformedStream failure here. -/
theorem c3_counterexample :
    (Library.read [str ">A", str ">B", str "AA"]).toOption.map
        (fun l => l.entries_list.map (fun e => (e.sequence, e.properties 1, e.properties 2)))
      = some [(str "AA", [str "B"], [str "AA"])] := by
  decide

/-- C3 amended: Library.read never fails on a header line immediately
followed by another header line, nor on a header line at end of stream:
the first of two consecutive header lines is silently overwritten by the
second, and a pending header left at end of stream is silently dropped,
the read completing with the same result as if the malformed header were
absent. -/
theorem c3_no_malformed_stream_failure :
    (∀ (l1 l2 : Str) (rest : List Str) (pending : Option Str) (st : LibState),
        (cleanLine l1).head? = some '>' → (cleanLine l2).head? = some '>' →
        readLines (l1 :: l2 :: rest) pending st = readLines (l2 :: rest) pending st)
    ∧ (∀ (lines : List Str) (h : Str) (pending : Option Str) (st : LibState),
        (cleanLine h).head? = some '>' →
        readLines (lines ++ [h]) pending st = readLines lines pending st) := by
  constructor
  · intro l1 l2 rest pending st h1 h2
    rw [readLines_cons_header _ _ _ _ h1, readLines_cons_header _ _ _ _ h2,
      readLines_cons_header _ _ _ _ h2]
  · intro lines
    induction lines with
    | nil =>
      intro h pending st hh
      rw [List.nil_append, readLines_cons_header _ _ _ _ hh]
      rfl
    | cons l ls ih =>
      intro h pending st hh
      rw [List.cons_append]
      by_cases hc : cleanLine l = []
      · simp only [readLines]
        rw [dif_pos hc, dif_pos hc]
        exact ih h pending st hh
      · by_cases hhead : (cleanLine l).head hc = '>'
        · have hh2 : (cleanLine l).head? = some '>' := by
            rw [List.head?_eq_head hc, hhead]
          rw [readLines_cons_header _ _ _ _ hh2, readLines_cons_header _ _ _ _ hh2]
          exact ih h _ st hh
        · simp only [readLines]
          rw [dif_neg hc, dif_neg hc, if_neg hhead, if_neg hhead]
          cases pending with
          | none => exact ih h none st hh
          | some c =>
            show (match Entry.new (cleanLine l) (some c) with
                | Except.error e => Except.error e
                | Except.ok entry => readLines (ls ++ [h]) none { entries := odInsert st.entries (cleanLine l) entry, entries_list := st.entries_list ++ [entry] })
              = (match Entry.new (cleanLine l) (some c) with
                | Except.error e => Except.error e
                | Except.ok entry => readLines ls none { entries := odInsert st.entries (cleanLine l) entry, entries_list := st.entries_list ++ [entry] })
            cases hE : Entry.new (cleanLine l) (some c) with
            | error e => rfl
            | ok entry => exact ih h none _ hh

theorem c3_no_malformed_stream_failure_witness :
    readLines [str ">A", str ">B", str "AA"] none { entries := [], entries_list := [] }
      = readLines [str ">B", str "AA"] none { entries := [], entries_list := [] } :=
  c3_no_malformed_stream_failure.1 (str ">A") (str ">B") [str "AA"] none
    { entries := [], entries_list := [] } (by decide) (by decide)

/-! ## Classifier helper lemmas -/

theorem idOfName_ID : idOfName (str "ID") = some 1 := by decide

theorem idOfName_name : idOfName (str "name") = some 3 := by decide

theorem idOfName_source : idOfName (str "source") = some 4 := by decide

theorem idOfName_gene : idOfName (str "gene") = some 6 := by decide

theorem idOfName_antimicrobial : idOfName (str "antimicrobial") = some 14 := by decide

theorem idOfName_antibacterial : idOfName (str "antibacterial") = some 15 := by decide

theorem idOfName_antifungal : idOfName (str "antifungal") = some 18 := by decide

theorem idOfName_antiviral : idOfName (str "antiviral") = some 20 := by decide

theorem idOfName_antitumor : idOfName (str "antitumor") = some 28 := by decide

theorem idOfName_pdb : idOfName (str "pdb") = some 53 := by decide

theorem idOfName_taxonomy : idOfName (str "taxonomy") = some 56 := by decide

theorem appendName_properties_ne (e : Entry) (name v : Str) (i : Nat)
    (h : idOfName name ≠ some i) :
    (e.appendName name v).properties i = e.properties i := by
  unfold Entry.appendName
  cases hn : idOfName name with
  | none => rfl
  | some k =>
    have hik : i ≠ k := by
      intro he
      exact h (by rw [hn, he])
    simp [hik]

theorem kwStep_properties_ne (kwid : Option Str) (e : Entry) (p : Str × List Str)
    (i : Nat) (h : idOfName p.1 ≠ some i) :
    (kwStep kwid e p).properties i = e.properties i := by
  unfold kwStep
  split
  · split
    · exact appendName_properties_ne e p.1 p.1 i h
    · rfl
  · rfl

theorem kwFold_properties_ne (kwid : Option Str) :
    ∀ (tbl : List (Str × List Str)) (e : Entry) (i : Nat),
      (∀ p ∈ tbl, idOfName p.1 ≠ some i) →
      (tbl.foldl (kwStep kwid) e).properties i = e.properties i := by
  intro tbl
  induction tbl with
  | nil => intro e i _; rfl
  | cons p t ih =>
    intro e i h
    rw [List.foldl_cons, ih _ _ (fun q hq => h q (List.mem_cons_of_mem _ hq)),
      kwStep_properties_ne _ _ _ _ (h p (List.mem_cons_self _ _))]

theorem nameFold_properties_ne (i : Nat) (h : idOfName (str "name") ≠ some i) :
    ∀ (cs : List XElem) (e : Entry),
      ((cs.foldl (fun e sub => e.appendName (str "name") sub.text) e).properties i
        = e.properties i) := by
  intro cs
  induction cs with
  | nil => intro e; rfl
  | cons c t ih =>
    intro e
    rw [List.foldl_cons, ih, appendName_properties_ne _ _ _ _ h]

theorem dbReferenceStep_properties (s : PState) (el : XElem) (i : Nat)
    (h1 : i ≠ 1) (h53 : i ≠ 53) :
    (dbReferenceStep s el).entry.properties i = s.entry.properties i := by
  have hID : idOfName (str "ID") ≠ some i := by
    rw [idOfName_ID]
    exact fun hc => h1 (Option.some_inj.mp hc).symm
  have hpdb : idOfName (str "pdb") ≠ some i := by
    rw [idOfName_pdb]
    exact fun hc => h53 (Option.some_inj.mp hc).symm
  simp only [dbReferenceStep]
  by_cases c0 : optMem (el.get (str "type")) ignored_dbtypes = true
  · rw [if_pos c0]
  · rw [if_neg c0]
    by_cases c1 : el.get (str "type") = some (str "SUPFAM")
    · rw [if_pos c1]
      exact appendName_properties_ne _ _ _ _ hID
    · rw [if_neg c1]
      by_cases c2 : el.get (str "type") = some (str "Pfam")
      · rw [if_pos c2]
        exact appendName_properties_ne _ _ _ _ hID
      · rw [if_neg c2]
        by_cases c3 : el.get (str "type") = some (str "ProteinModelPortal")
        · rw [if_pos c3]
          exact appendName_properties_ne _ _ _ _ hID
        · rw [if_neg c3]
          by_cases c4 : el.get (str "type") = some (str "TIGRFAMs")
          · rw [if_pos c4]
            exact appendName_properties_ne _ _ _ _ hID
          · rw [if_neg c4]
            by_cases c5 : el.get (str "type") = some (str "HAMAP")
            · rw [if_pos c5]
              exact appendName_properties_ne _ _ _ _ hID
            · rw [if_neg c5]
              by_cases c6 : el.get (str "type") = some (str "PROSITE")
              · rw [if_pos c6]
                exact appendName_properties_ne _ _ _ _ hID
              · rw [if_neg c6]
                by_cases c7 : el.get (str "type") = some (str "PIRSF")
                · rw [if_pos c7]
                  exact appendName_properties_ne _ _ _ _ hID
                · rw [if_neg c7]
                  by_cases c8 : el.get (str "type") = some (str "CDD")
                  · rw [if_pos c8]
                    exact appendName_properties_ne _ _ _ _ hID
                  · rw [if_neg c8]
                    by_cases c9 : el.get (str "type") = some (str "ProDom")
                    · rw [if_pos c9]
                      exact appendName_properties_ne _ _ _ _ hID
                    · rw [if_neg c9]
                      by_cases c10 : el.get (str "type") = some (str "SMR")
                      · rw [if_pos c10]
                        exact appendName_properties_ne _ _ _ _ hID
                      · rw [if_neg c10]
                        by_cases c11 : el.get (str "type") = some (str "PDB")
                        · rw [if_pos c11]
                          exact appendName_properties_ne _ _ _ _ hpdb
                        · rw [if_neg c11]
                          rfl

theorem finalCheck_entry (s : PState) : (finalCheck s).entry = s.entry := by
  unfold finalCheck
  by_cases herr : s.err = true
  · rw [if_pos herr]
  · rw [if_neg herr]
    by_cases hf : (finalWarnings s).2 = true
    · rw [if_pos hf]
    · rw [if_neg hf]

theorem stepElem_properties (s : PState) (el : XElem) (i : Nat) (h : i ∉ mutableSlots) :
    (stepElem s el).entry.properties i = s.entry.properties i := by
  have hmem : ¬(i = 1 ∨ i = 3 ∨ i = 4 ∨ i = 6 ∨ i = 14 ∨ i = 15 ∨ i = 18 ∨ i = 20
      ∨ i = 28 ∨ i = 53 ∨ i = 56) := by
    simpa [mutableSlots] using h
  push_neg at hmem
  obtain ⟨h1, h3, h4, h6, h14, h15, h18, h20, h28, h53, h56⟩ := hmem
  have hID : idOfName (str "ID") ≠ some i := by
    rw [idOfName_ID]
    exact fun hc => h1 (Option.some_inj.mp hc).symm
  have hname : idOfName (str "name") ≠ some i := by
    rw [idOfName_name]
    exact fun hc => h3 (Option.some_inj.mp hc).symm
  have hsource : idOfName (str "source") ≠ some i := by
    rw [idOfName_source]
    exact fun hc => h4 (Option.some_inj.mp hc).symm
  have hgene : idOfName (str "gene") ≠ some i := by
    rw [idOfName_gene]
    exact fun hc => h6 (Option.some_inj.mp hc).symm
  have htax : idOfName (str "taxonomy") ≠ some i := by
    rw [idOfName_taxonomy]
    exact fun hc => h56 (Option.some_inj.mp hc).symm
  have hkw : ∀ p ∈ BIOPROPERTIES_UNIPROT_KEYWORDS, idOfName p.1 ≠ some i := by
    intro p hp
    simp only [BIOPROPERTIES_UNIPROT_KEYWORDS, List.mem_cons, List.not_mem_nil,
      or_false] at hp
    rcases hp with rfl | rfl | rfl | rfl | rfl
    · show idOfName (str "antimicrobial") ≠ some i
      rw [idOfName_antimicrobial]
      exact fun hc => h14 (Option.some_inj.mp hc).symm
    · show idOfName (str "antibacterial") ≠ some i
      rw [idOfName_antibacterial]
      exact fun hc => h15 (Option.some_inj.mp hc).symm
    · show idOfName (str "antifungal") ≠ some i
      rw [idOfName_antifungal]
      exact fun hc => h18 (Option.some_inj.mp hc).symm
    · show idOfName (str "antiviral") ≠ some i
      rw [idOfName_antiviral]
      exact fun hc => h20 (Option.some_inj.mp hc).symm
    · show idOfName (str "antitumor") ≠ some i
      rw [idOfName_antitumor]
      exact fun hc => h28 (Option.some_inj.mp hc).symm
  simp only [stepElem]
  by_cases herr : s.err = true
  · rw [if_pos herr]
  · rw [if_neg herr]
    by_cases t1 : get_tag el = str "accession"
    · rw [if_pos t1]
      exact appendName_properties_ne _ _ _ _ hID
    · rw [if_neg t1]
      by_cases t2 : get_tag el = str "gene"
      · rw [if_pos t2]
        cases el.children.head? with
        | none => rfl
        | some c => exact appendName_properties_ne _ _ _ _ hgene
      · rw [if_neg t2]
        by_cases t3 : get_tag el = str "name"
        · rw [if_pos t3]
          exact appendName_properties_ne _ _ _ _ hname
        · rw [if_neg t3]
          by_cases t4 : get_tag el = str "protein"
          · rw [if_pos t4]
            cases el.children.head? with
            | none => rfl
            | some c => exact nameFold_properties_ne i hname c.children s.entry
          · rw [if_neg t4]
            by_cases t5 : get_tag el = str "organism"
            · rw [if_pos t5]
              cases el.children.head? with
              | none => rfl
              | some c0 =>
                cases el.children.get? 1 with
                | none => exact appendName_properties_ne _ _ _ _ hsource
                | some c1 =>
                  have hstep := appendName_properties_ne
                    (s.entry.appendName (str "source") c0.text) (str "taxonomy")
                    (str "NCBI:" ++ pyFmt (c1.get (str "id"))) i htax
                  rw [appendName_properties_ne _ _ _ _ hsource] at hstep
                  exact hstep
            · rw [if_neg t5]
              by_cases t6 : get_tag el = str "dbReference"
              · rw [if_pos t6]
                exact dbReferenceStep_properties s el i h1 h53
              · rw [if_neg t6]
                by_cases t7 : get_tag el = str "keyword"
                · rw [if_pos t7]
                  exact kwFold_properties_ne _ _ _ _ hkw
                · rw [if_neg t7]

theorem stepElem_entry_unstructured (s : PState) (el : XElem)
    (h : get_tag el ∉ structuredTags) :
    (stepElem s el).entry = s.entry := by
  have hmem : ¬(get_tag el = str "accession" ∨ get_tag el = str "gene"
      ∨ get_tag el = str "name" ∨ get_tag el = str "protein"
      ∨ get_tag el = str "organism" ∨ get_tag el = str "dbReference"
      ∨ get_tag el = str "keyword") := by
    simpa [structuredTags] using h
  push_neg at hmem
  obtain ⟨ha, hg, hn, hp, ho, hd, hk⟩ := hmem
  simp only [stepElem]
  by_cases herr : s.err = true
  · rw [if_pos herr]
  · rw [if_neg herr, if_neg ha, if_neg hg, if_neg hn, if_neg hp, if_neg ho,
      if_neg hd, if_neg hk]

/-- C2: only structured dispatch and curated keyword dispatch can mutate
the Entry.  First part: populate leaves every slot outside the eleven
reachable slots untouched for every document.  Second part: a run in
which every element misses the structured tags, so that only the
heuristic free-text branch fires, leaves the Entry itself entirely
unchanged (heuristic matches only produce warnings). -/
theorem c2_classifier_containment :
    (∀ (e : Entry) (tree : List XElem) (i : Nat), i ∉ mutableSlots →
        (populate_entry_using_uniprot_xml e tree).entry.properties i = e.properties i)
    ∧ (∀ (e : Entry) (tree : List XElem),
        (∀ el ∈ tree, get_tag el ∉ structuredTags) →
        (populate_entry_using_uniprot_xml e tree).entry = e) := by
  constructor
  · intro e tree i h
    unfold populate_entry_using_uniprot_xml
    rw [finalCheck_entry]
    have hfold : ∀ (ts : List XElem) (s : PState),
        ((ts.foldl stepElem s).entry.properties i = s.entry.properties i) := by
      intro ts
      induction ts with
      | nil => intro s; rfl
      | cons t ts ih =>
        intro s
        rw [List.foldl_cons, ih, stepElem_properties _ _ _ h]
    rw [hfold]
    rfl
  · intro e tree h
    unfold populate_entry_using_uniprot_xml
    rw [finalCheck_entry]
    have hfold : ∀ (ts : List XElem) (s : PState),
        (∀ el ∈ ts, get_tag el ∉ structuredTags) →
        ((ts.foldl stepElem s).entry = s.entry) := by
      intro ts
      induction ts with
      | nil => intro s _; rfl
      | cons t ts ih =>
        intro s hts
        rw [List.foldl_cons, ih _ (fun q hq => hts q (List.mem_cons_of_mem _ hq)),
          stepElem_entry_unstructured _ _ (hts t (List.mem_cons_self _ _))]
    rw [hfold _ _ h]
    rfl

theorem c2_classifier_containment_witness :
    (populate_entry_using_uniprot_xml emptyEntry [commentElem]).entry.properties 7
        = emptyEntry.properties 7
    ∧ (populate_entry_using_uniprot_xml emptyEntry [commentElem]).entry = emptyEntry :=
  ⟨c2_classifier_containment.1 emptyEntry [commentElem] 7 (by decide),
    c2_classifier_containment.2 emptyEntry [commentElem] (by decide)⟩

/-! ## Keyword dispatch lemmas (C6, C10) -/

theorem stepElem_keyword (s : PState) (el : XElem)
    (htag : get_tag el = str "keyword") :
    stepElem s el = (if s.err then s
      else { s with entry := (BIOPROPERTIES_UNIPROT_KEYWORDS.foldl
        (kwStep (el.get (str "id"))) s.entry) }) := by
  have ha : ¬(str "keyword" = str "accession") := by decide
  have hg : ¬(str "keyword" = str "gene") := by decide
  have hn : ¬(str "keyword" = str "name") := by decide
  have hp : ¬(str "keyword" = str "protein") := by decide
  have ho : ¬(str "keyword" = str "organism") := by decide
  have hd : ¬(str "keyword" = str "dbReference") := by decide
  by_cases herr : s.err = true
  · simp only [stepElem, if_pos herr]
  · simp only [stepElem, htag, if_neg herr]
    rw [if_neg ha, if_neg hg, if_neg hn, if_neg hp, if_neg ho, if_neg hd,
      if_pos trivial]

theorem kwFold_nomatch (kwid : Option Str) :
    ∀ (tbl : List (Str × List Str)) (e : Entry),
      (∀ p ∈ tbl, optMem kwid p.2 = false) →
      tbl.foldl (kwStep kwid) e = e := by
  intro tbl
  induction tbl with
  | nil => intro e _; rfl
  | cons p t ih =>
    intro e h
    rw [List.foldl_cons,
      show kwStep kwid e p = e from by
        unfold kwStep
        rw [h p (List.mem_cons_self _ _)]
        simp]
    exact ih e (fun q hq => h q (List.mem_cons_of_mem _ hq))

theorem kwStep_noop_of_ne_nil (kwid : Option Str) (e : Entry) (p : Str × List Str)
    (k : Nat) (hk : idOfName p.1 = some k) (hne : e.properties k ≠ []) :
    kwStep kwid e p = e := by
  unfold kwStep
  have hlen : ¬(e.lenName p.1 = 0) := by
    unfold Entry.lenName
    rw [hk]
    simp [hne]
  rw [if_neg hlen, ite_self]

theorem kwStep_makes (kwid : Option Str) (e : Entry) (p : Str × List Str)
    (k : Nat) (hk : idOfName p.1 = some k) (hm : optMem kwid p.2 = true) :
    (kwStep kwid e p).properties k ≠ [] := by
  unfold kwStep
  rw [hm]
  simp only [if_true]
  by_cases hl : e.lenName p.1 = 0
  · rw [if_pos hl]
    unfold Entry.appendName
    rw [hk]
    simp
  · rw [if_neg hl]
    unfold Entry.lenName at hl
    rw [hk] at hl
    simp only [List.length_eq_zero] at hl
    exact hl

theorem kwFold_idem (kwid : Option Str) :
    ∀ (tbl : List (Str × List Str)) (e : Entry),
      (∀ p ∈ tbl, (idOfName p.1).isSome) →
      tbl.Pairwise (fun p q => idOfName p.1 ≠ idOfName q.1) →
      tbl.foldl (kwStep kwid) (tbl.foldl (kwStep kwid) e) = tbl.foldl (kwStep kwid) e := by
  intro tbl
  induction tbl with
  | nil => intro e _ _; rfl
  | cons p t ih =>
    intro e hsome hpw
    obtain ⟨hhead, htail⟩ := List.pairwise_cons.mp hpw
    simp only [List.foldl_cons]
    have hstep : kwStep kwid (t.foldl (kwStep kwid) (kwStep kwid e p)) p
        = t.foldl (kwStep kwid) (kwStep kwid e p) := by
      cases hm : optMem kwid p.2 with
      | false =>
        unfold kwStep
        rw [hm]
        simp
      | true =>
        obtain ⟨k, hk⟩ := Option.isSome_iff_exists.mp (hsome p (List.mem_cons_self _ _))
        apply kwStep_noop_of_ne_nil kwid _ p k hk
        have hpres : (t.foldl (kwStep kwid) (kwStep kwid e p)).properties k
            = (kwStep kwid e p).properties k := by
          apply kwFold_properties_ne
          intro q hq
          have hne := hhead q hq
          rw [hk] at hne
          exact fun hc => hne hc.symm
        rw [hpres]
        exact kwStep_makes kwid e p k hk hm
    rw [hstep]
    exact ih (kwStep kwid e p) (fun q hq => hsome q (List.mem_cons_of_mem _ hq)) htail

/-- C10: a keyword element whose id matches none of the curated codes is
a complete no-op: no Entry mutation, no warning, no potential-property
record (it is never handed to the heuristic scan), the whole loop state
is unchanged. -/
theorem c10_unmatched_keyword_noop (s : PState) (el : XElem)
    (htag : get_tag el = str "keyword")
    (hnm : ∀ p ∈ BIOPROPERTIES_UNIPROT_KEYWORDS, optMem (el.get (str "id")) p.2 = false) :
    stepElem s el = s := by
  rw [stepElem_keyword s el htag, kwFold_nomatch _ _ _ hnm]
  by_cases herr : s.err = true
  · rw [if_pos herr]
  · rw [if_neg herr]

theorem c10_unmatched_keyword_noop_witness :
    stepElem (initState emptyEntry) kwElem9999 = initState emptyEntry :=
  c10_unmatched_keyword_noop (initState emptyEntry) kwElem9999 (by decide) (by decide)

/-- C6: curated keyword dispatch is idempotent first-match-wins flag
setting.  First part: for every state and every keyword element,
processing the element twice equals processing it once.  Second part: a
keyword child with id KW-0081 on an Entry with empty antimicrobial and
antibacterial slots sets slot 14 to ["antimicrobial"] and slot 15 to
["antibacterial"], and a second identical child is a no-op. -/
theorem c6_keyword_idempotent :
    (∀ (s : PState) (el : XElem), get_tag el = str "keyword" →
        stepElem (stepElem s el) el = stepElem s el)
    ∧ ((stepElem (initState emptyEntry) kwElem81).entry.properties 14
          = [str "antimicrobial"]
        ∧ (stepElem (initState emptyEntry) kwElem81).entry.properties 15
          = [str "antibacterial"]
        ∧ stepElem (stepElem (initState emptyEntry) kwElem81) kwElem81
          = stepElem (initState emptyEntry) kwElem81) := by
  have hmain : ∀ (s : PState) (el : XElem), get_tag el = str "keyword" →
      stepElem (stepElem s el) el = stepElem s el := by
    intro s el htag
    by_cases herr : s.err = true
    · rw [stepElem_keyword s el htag, if_pos herr, stepElem_keyword s el htag,
        if_pos herr]
    · rw [stepElem_keyword s el htag, if_neg herr, stepElem_keyword _ el htag]
      have herr2 : ¬(({ s with entry := (BIOPROPERTIES_UNIPROT_KEYWORDS.foldl
          (kwStep (el.get (str "id"))) s.entry) } : PState).err = true) := herr
      rw [if_neg herr2]
      have hidem := kwFold_idem (el.get (str "id")) BIOPROPERTIES_UNIPROT_KEYWORDS
        s.entry (by decide) (by decide)
      rw [hidem]
  refine ⟨hmain, ?_, ?_, ?_⟩
  · decide
  · decide
  · exact hmain (initState emptyEntry) kwElem81 (by decide)

theorem c6_keyword_idempotent_witness :
    stepElem (stepElem (initState emptyEntry) kwElem9999) kwElem9999
      = stepElem (initState emptyEntry) kwElem9999 :=
  c6_keyword_idempotent.1 (initState emptyEntry) kwElem9999 (by decide)

/-! ## Encoder shape lemmas (C7, C1) -/

theorem foldl_fields_form (f : Nat → Str) :
    ∀ (l : List Nat) (a : Str),
      l.foldl (fun acc i => acc ++ f i ++ str " ") a
        = a ++ (l.map (fun i => f i ++ str " ")).flatten := by
  intro l
  induction l with
  | nil => intro a; simp
  | cons x t ih =>
    intro a
    rw [List.foldl_cons, ih, List.map_cons, List.flatten_cons]
    simp [List.append_assoc]

theorem flatten_map_space :
    ∀ (fs : List Str), fs ≠ [] →
      (fs.map (fun f => f ++ str " ")).flatten
        = List.intercalate (str " ") fs ++ str " " := by
  intro fs
  induction fs with
  | nil => intro h; exact absurd rfl h
  | cons f t ih =>
    intro _
    cases t with
    | nil => simp [List.intercalate]
    | cons g u =>
      rw [List.map_cons, List.flatten_cons, ih (by simp),
        show List.intercalate (str " ") (f :: g :: u)
          = f ++ str " " ++ List.intercalate (str " ") (g :: u) from by
            simp [List.intercalate, List.intersperse_cons_cons]]
      simp [List.append_assoc]

theorem dropWhile_append_of_ne_nil (p : Char → Bool) :
    ∀ (a b : Str), a.dropWhile p ≠ [] → (a ++ b).dropWhile p = a.dropWhile p ++ b := by
  intro a
  induction a with
  | nil => intro b h; exact absurd rfl h
  | cons c t ih =>
    intro b h
    by_cases hc : p c
    · rw [List.dropWhile_cons_of_pos hc] at h
      rw [List.cons_append, List.dropWhile_cons_of_pos hc, List.dropWhile_cons_of_pos hc]
      exact ih b h
    · rw [List.cons_append, List.dropWhile_cons_of_neg hc, List.dropWhile_cons_of_neg hc,
        List.cons_append]

theorem stripSpaces_header (m : Str) (hm : m.reverse.head? ≠ some ' ') :
    stripSpaces ('>' :: (m ++ [' '])) = '>' :: m := by
  unfold stripSpaces dropTrailing
  rw [List.dropWhile_cons_of_neg (by decide)]
  rw [List.reverse_cons, List.reverse_append]
  show (List.dropWhile _ ((([' '] : Str) ++ m.reverse) ++ ['>'])).reverse = _
  rw [List.append_assoc, List.singleton_append,
    List.dropWhile_cons_of_pos (by decide)]
  have hstop : List.dropWhile (fun c => c == ' ') (m.reverse ++ ['>'])
      = m.reverse ++ ['>'] := by
    cases hr : m.reverse with
    | nil => simp
    | cons x xs =>
      have hne : x ≠ ' ' := by
        rw [hr] at hm
        intro he
        exact hm (by rw [he]; rfl)
      have hx : (x == ' ') = false := beq_eq_false_iff_ne.mpr hne
      rw [List.cons_append]
      simp [List.dropWhile_cons, hx]
  rw [hstop, List.reverse_append, List.reverse_reverse]
  rfl

theorem fieldStr_ne_nil (l : List Str) : fieldStr l ≠ [] := by
  unfold fieldStr
  split
  · decide
  · simp [str]

theorem fieldStr_getLast (l : List Str) :
    (fieldStr l).getLast? = some '_' ∨ (fieldStr l).getLast? = some ';' := by
  unfold fieldStr
  split
  · left
    rfl
  · right
    show (List.intercalate (str ";") l ++ [';']).getLast? = some ';'
    rw [List.getLast?_concat]

theorem getLast?_intercalate_getLast (sep : Str) :
    ∀ (fs : List Str) (f : Str), f ≠ [] →
      (List.intercalate sep (fs ++ [f])).getLast? = f.getLast? := by
  intro fs
  induction fs with
  | nil =>
    intro f _
    simp [List.intercalate]
  | cons g t ih =>
    intro f hf
    have hcons : ∃ y u, t ++ [f] = y :: u := by
      cases t with
      | nil => exact ⟨f, [], rfl⟩
      | cons a b => exact ⟨a, b ++ [f], rfl⟩
    obtain ⟨y, u, hyu⟩ := hcons
    rw [List.cons_append, show List.intercalate sep (g :: (t ++ [f]))
        = g ++ sep ++ List.intercalate sep (t ++ [f]) from by
      rw [hyu]
      simp [List.intercalate, List.intersperse_cons_cons]]
    rw [List.getLast?_append, ih f hf]
    cases hfl : f.getLast? with
    | none =>
      rw [List.getLast?_eq_none_iff] at hfl
      exact absurd hfl hf
    | some a => rfl

theorem fieldsOf_eq (e : Entry) :
    fieldsOf e = (List.range 64).map (fun i => fieldStr (e.properties (i + 1)))
      ++ [fieldStr (e.properties 65)] := by
  unfold fieldsOf Entry.nproperties_used
  rw [List.range_succ, List.map_append]
  rfl

theorem fieldsOf_ne_nil (e : Entry) : fieldsOf e ≠ [] := by
  rw [fieldsOf_eq]
  simp

theorem fieldsOf_getLast_not_space (e : Entry) :
    (List.intercalate (str " ") (fieldsOf e)).reverse.head? ≠ some ' ' := by
  rw [List.head?_reverse]
  rw [fieldsOf_eq, getLast?_intercalate_getLast _ _ _ (fieldStr_ne_nil _)]
  rcases fieldStr_getLast (e.properties 65) with h | h <;> rw [h] <;> decide

theorem to_fasta_eq (e : Entry) :
    e.to_fasta = ('>' :: List.intercalate (str " ") (fieldsOf e))
      ++ '\n' :: (e.sequence ++ ['\n']) := by
  unfold Entry.to_fasta
  rw [foldl_fields_form (fun i => fieldStr (e.properties (i + 1)))
    (List.range Entry.nproperties_used) (str ">")]
  rw [show (List.range Entry.nproperties_used).map
        (fun i => fieldStr (e.properties (i + 1)) ++ str " ")
      = (fieldsOf e).map (fun f => f ++ str " ") from by
    unfold fieldsOf
    rw [List.map_map]
    rfl]
  rw [flatten_map_space (fieldsOf e) (fieldsOf_ne_nil e)]
  rw [show (str ">") ++ (List.intercalate (str " ") (fieldsOf e) ++ str " ")
      = '>' :: (List.intercalate (str " ") (fieldsOf e) ++ [' ']) from rfl]
  rw [stripSpaces_header _ (fieldsOf_getLast_not_space e)]
  simp [str, List.append_assoc]

/-- C7: the encoder output shape.  to_fasta is the ">" marker glued to
exactly 65 whitespace-separated fields in ascending slot order 1..65
(the fields of fieldsOf, joined by single spaces), then the sequence
line; an empty slot serializes to exactly "_", a one-value slot to the
value with ";" appended, and every non-empty field ends in ";". -/
theorem c7_encode_shape (e : Entry) :
    e.to_fasta = ('>' :: List.intercalate (str " ") (fieldsOf e))
        ++ '\n' :: (e.sequence ++ ['\n'])
    ∧ (fieldsOf e).length = 65
    ∧ (∀ k, k < 65 → (fieldsOf e).getD k [] = fieldStr (e.properties (k + 1)))
    ∧ fieldStr [] = str "_"
    ∧ (∀ x : Str, fieldStr [x] = x ++ str ";")
    ∧ (∀ l : List Str, l ≠ [] → (fieldStr l).getLast? = some ';') := by
  refine ⟨to_fasta_eq e, by simp [fieldsOf, Entry.nproperties_used], ?_, rfl, ?_, ?_⟩
  · intro k hk
    unfold fieldsOf Entry.nproperties_used
    rw [List.getD_eq_getElem?_getD, List.getElem?_map, List.getElem?_range hk]
    rfl
  · intro x
    unfold fieldStr
    rw [if_neg (by simp)]
    simp [List.intercalate]
  · intro l hl
    unfold fieldStr
    rw [if_neg hl]
    show (List.intercalate (str ";") l ++ [';']).getLast? = some ';'
    rw [List.getLast?_concat]

theorem c7_encode_shape_witness :
    (fieldsOf emptyEntry).getD 3 [] = fieldStr (emptyEntry.properties 4)
    ∧ (fieldStr [str "x"]).getLast? = some ';' :=
  ⟨(c7_encode_shape emptyEntry).2.2.1 3 (by decide),
    (c7_encode_shape emptyEntry).2.2.2.2.2 [str "x"] (by decide)⟩

/-! ## Split lemmas (C1) -/

theorem pySplitAux_chunk :
    ∀ (f rest acc : Str), (∀ c ∈ f, isWS c = false) →
      pySplitAux (f ++ rest) acc = pySplitAux rest (f.reverse ++ acc) := by
  intro f
  induction f with
  | nil => intro rest acc _; rfl
  | cons c t ih =>
    intro rest acc hf
    have hc : isWS c = false := hf c (List.mem_cons_self _ _)
    rw [List.cons_append,
      show pySplitAux (c :: (t ++ rest)) acc = pySplitAux (t ++ rest) (c :: acc) from by
        simp [pySplitAux, hc]]
    rw [ih rest (c :: acc) (fun d hd => hf d (List.mem_cons_of_mem _ hd))]
    rw [List.reverse_cons, List.append_assoc, List.singleton_append]

theorem pySplitAux_space (rest acc : Str) :
    pySplitAux (' ' :: rest) acc
      = if acc = [] then pySplitAux rest [] else acc.reverse :: pySplitAux rest [] := by
  simp [pySplitAux, isWS]

theorem pySplit_intercalate :
    ∀ (fs : List Str), (∀ f ∈ fs, f ≠ [] ∧ ∀ c ∈ f, isWS c = false) →
      pySplit (List.intercalate (str " ") fs) = fs := by
  intro fs
  induction fs with
  | nil => intro _; rfl
  | cons f t ih =>
    intro h
    have hf := h f (List.mem_cons_self _ _)
    cases t with
    | nil =>
      show pySplit (List.intercalate (str " ") [f]) = [f]
      rw [show List.intercalate (str " ") [f] = f from by simp [List.intercalate]]
      unfold pySplit
      rw [show f = f ++ [] from (List.append_nil f).symm, pySplitAux_chunk f [] [] hf.2]
      unfold pySplitAux
      rw [if_neg (by simp [hf.1])]
      simp
    | cons g u =>
      rw [show List.intercalate (str " ") (f :: g :: u)
          = f ++ (' ' :: List.intercalate (str " ") (g :: u)) from by
        simp [List.intercalate, List.intersperse_cons_cons, str]]
      unfold pySplit
      rw [pySplitAux_chunk f _ [] hf.2, pySplitAux_space]
      rw [if_neg (by simp [hf.1])]
      rw [List.append_nil, List.reverse_reverse]
      exact congrArg (f :: ·) (ih (fun q hq => h q (List.mem_cons_of_mem _ hq)))

theorem pySplitOnAux_chunk (sep : Char) :
    ∀ (f rest acc : Str), (∀ c ∈ f, c ≠ sep) →
      pySplitOnAux sep (f ++ rest) acc = pySplitOnAux sep rest (f.reverse ++ acc) := by
  intro f
  induction f with
  | nil => intro rest acc _; rfl
  | cons c t ih =>
    intro rest acc hf
    have hc : c ≠ sep := hf c (List.mem_cons_self _ _)
    rw [List.cons_append,
      show pySplitOnAux sep (c :: (t ++ rest)) acc
          = pySplitOnAux sep (t ++ rest) (c :: acc) from by
        simp [pySplitOnAux, hc]]
    rw [ih rest (c :: acc) (fun d hd => hf d (List.mem_cons_of_mem _ hd))]
    rw [List.reverse_cons, List.append_assoc, List.singleton_append]

theorem pySplitOnAux_sep (sep : Char) (rest acc : Str) :
    pySplitOnAux sep (sep :: rest) acc = acc.reverse :: pySplitOnAux sep rest [] := by
  simp [pySplitOnAux]

theorem pySplitOn_intercalate_semi :
    ∀ (vs : List Str), vs ≠ [] → (∀ v ∈ vs, ∀ c ∈ v, c ≠ ';') →
      pySplitOn ';' (List.intercalate (str ";") vs ++ str ";") = vs ++ [[]] := by
  intro vs
  induction vs with
  | nil => intro h _; exact absurd rfl h
  | cons v t ih =>
    intro _ h
    have hv := h v (List.mem_cons_self _ _)
    cases t with
    | nil =>
      show pySplitOn ';' (List.intercalate (str ";") [v] ++ [';']) = [v, []]
      rw [show List.intercalate (str ";") [v] = v from by simp [List.intercalate]]
      unfold pySplitOn
      rw [pySplitOnAux_chunk ';' v [';'] [] hv, pySplitOnAux_sep]
      simp [pySplitOnAux]
    | cons g u =>
      rw [show List.intercalate (str ";") (v :: g :: u) ++ str ";"
          = v ++ (';' :: (List.intercalate (str ";") (g :: u) ++ str ";")) from by
        simp [List.intercalate, List.intersperse_cons_cons, str]]
      unfold pySplitOn
      rw [pySplitOnAux_chunk ';' v _ [] hv, pySplitOnAux_sep]
      rw [List.append_nil, List.reverse_reverse]
      exact congrArg (v :: ·) (ih (by simp) (fun q hq => h q (List.mem_cons_of_mem _ hq)))

theorem filter_append_empty_piece (vs : List Str) (h : ∀ v ∈ vs, v ≠ []) :
    (vs ++ [[]]).filter (fun v => v != []) = vs := by
  rw [List.filter_append]
  rw [show List.filter (fun v => v != []) [[]] = ([] : List Str) from rfl]
  rw [List.append_nil]
  rw [List.filter_eq_self]
  intro a ha
  simpa using h a ha

theorem piecesOf_fieldStr (l : List Str) (h1 : ∀ v ∈ l, v ≠ [])
    (h2 : ∀ v ∈ l, ∀ c ∈ v, c ≠ ';') :
    piecesOf (fieldStr l) = l := by
  by_cases hl : l = []
  · subst hl
    rfl
  · unfold piecesOf fieldStr
    rw [if_neg hl]
    rw [if_neg (by
      intro hc
      have hlast : (List.intercalate (str ";") l ++ str ";").getLast? = some ';' := by
        show (List.intercalate (str ";") l ++ [';']).getLast? = some ';'
        rw [List.getLast?_concat]
      rw [hc] at hlast
      exact absurd hlast (by decide))]
    rw [show List.intercalate (str ";") l ++ str ";"
        = List.intercalate (str ";") l ++ str ";" from rfl]
    rw [pySplitOn_intercalate_semi l hl h2]
    exact filter_append_empty_piece l h1

theorem getD_fieldsOf (e : Entry) (k : Nat) (hk : k < 65) :
    (fieldsOf e).getD k [] = fieldStr (e.properties (k + 1)) := by
  unfold fieldsOf Entry.nproperties_used
  rw [List.getD_eq_getElem?_getD, List.getElem?_map, List.getElem?_range hk]
  rfl

theorem fieldsOf_length (e : Entry) : (fieldsOf e).length = 65 := by
  simp [fieldsOf, Entry.nproperties_used]

theorem mem_intercalate (sep : Str) :
    ∀ (fs : List Str) (c : Char), c ∈ List.intercalate sep fs →
      c ∈ sep ∨ ∃ f ∈ fs, c ∈ f := by
  intro fs
  induction fs with
  | nil =>
    intro c hc
    simp [List.intercalate] at hc
  | cons f t ih =>
    intro c hc
    cases t with
    | nil =>
      rw [show List.intercalate sep [f] = f from by simp [List.intercalate]] at hc
      exact Or.inr ⟨f, List.mem_cons_self _ _, hc⟩
    | cons g u =>
      rw [show List.intercalate sep (f :: g :: u)
          = f ++ sep ++ List.intercalate sep (g :: u) from by
        simp [List.intercalate, List.intersperse_cons_cons]] at hc
      rcases List.mem_append.mp hc with hc1 | hc2
      · rcases List.mem_append.mp hc1 with hf | hs
        · exact Or.inr ⟨f, List.mem_cons_self _ _, hf⟩
        · exact Or.inl hs
      · rcases ih c hc2 with hs | ⟨q, hq, hcq⟩
        · exact Or.inl hs
        · exact Or.inr ⟨q, List.mem_cons_of_mem _ hq, hcq⟩

theorem mem_fieldStr (l : List Str) (c : Char) (hc : c ∈ fieldStr l) :
    c = '_' ∨ c = ';' ∨ ∃ v ∈ l, c ∈ v := by
  unfold fieldStr at hc
  by_cases hl : l = []
  · rw [if_pos hl] at hc
    simp [str] at hc
    exact Or.inl hc
  · rw [if_neg hl] at hc
    rcases List.mem_append.mp hc with hc1 | hc2
    · rcases mem_intercalate (str ";") l c hc1 with hs | hv
      · right
        left
        simpa [str] using hs
      · exact Or.inr (Or.inr hv)
    · right
      left
      simpa [str] using hc2

/-- C1 counterexample: the Entry with sequence "A", slot 1 = ["a b"] and
slot 2 = ["A"] satisfies every condition of the claim: no value contains
";" or has leading or trailing whitespace, and the sequence has no
newline; yet decoding its encoding yields slot 1 = ["a"], not ["a b"],
because the inner space of the value is taken as a field separator. -/
theorem c1_counterexample :
    ((List.range 65).all (fun k =>
        (innerSpaceEntry.properties (k + 1)).all (fun v =>
          !(v.contains ';') && !((v.head?.map isWS).getD false)
            && !((v.getLast?.map isWS).getD false))) = true)
    ∧ innerSpaceEntry.properties 2 = [innerSpaceEntry.sequence]
    ∧ innerSpaceEntry.sequence.contains '\n' = false
    ∧ (decodeText innerSpaceEntry.to_fasta).toOption.map (fun d => d.properties 1)
        ≠ some (innerSpaceEntry.properties 1) := by
  refine ⟨by decide, by decide, by decide, by decide⟩

/-- C1 amended: the round-trip law holds once inner whitespace and empty
values are also excluded: for every Entry whose slot 1..65 values are
non-empty and contain no ";" and no whitespace character anywhere, and
whose slot 2 equals [sequence] (as construction guarantees), decoding
the two-line text produced by to_fasta yields an Entry with the same
sequence and the same value lists on every slot 1..65. -/
theorem c1_roundtrip (e : Entry)
    (hvals : ∀ i, i ≤ 65 → 1 ≤ i → ∀ v ∈ e.properties i,
      v ≠ [] ∧ ∀ c ∈ v, c ≠ ';' ∧ isWS c = false)
    (hseq : e.properties 2 = [e.sequence]) :
    ∃ d, decodeText e.to_fasta = .ok d ∧ d.sequence = e.sequence
      ∧ ∀ i, i ≤ 65 → 1 ≤ i → d.properties i = e.properties i := by
  have hfields : ∀ f ∈ fieldsOf e, f ≠ [] ∧ ∀ c ∈ f, isWS c = false := by
    intro f hf
    unfold fieldsOf at hf
    rcases List.mem_map.mp hf with ⟨k, hk, rfl⟩
    have hk65 : k < 65 := List.mem_range.mp hk
    refine ⟨fieldStr_ne_nil _, ?_⟩
    intro c hc
    rcases mem_fieldStr (e.properties (k + 1)) c hc with rfl | rfl | ⟨v, hvmem, hcv⟩
    · decide
    · decide
    · exact ((hvals (k + 1) (by omega) (by omega) v hvmem).2 c hcv).2
  have hseqmem : e.sequence ∈ e.properties 2 := by
    rw [hseq]
    exact List.mem_cons_self _ _
  have hseqch : ∀ c ∈ e.sequence, c ≠ '\n' := by
    intro c hc hne
    have := ((hvals 2 (by omega) (by omega) e.sequence hseqmem).2 c hc).2
    rw [hne] at this
    exact absurd this (by decide)
  have hhdr : ∀ c ∈ ('>' :: List.intercalate (str " ") (fieldsOf e)), c ≠ '\n' := by
    intro c hc
    rcases List.mem_cons.mp hc with rfl | hic
    · decide
    · rcases mem_intercalate (str " ") (fieldsOf e) c hic with hs | ⟨f, hf, hcf⟩
      · intro hne
        rw [hne] at hs
        simp [str] at hs
      · intro hne
        have := (hfields f hf).2 c hcf
        rw [hne] at this
        exact absurd this (by decide)
  have hsplit : pySplitOn '\n' e.to_fasta
      = [('>' :: List.intercalate (str " ") (fieldsOf e)), e.sequence, []] := by
    rw [to_fasta_eq]
    unfold pySplitOn
    rw [pySplitOnAux_chunk '\n' ('>' :: List.intercalate (str " ") (fieldsOf e)) _ [] hhdr,
      pySplitOnAux_sep,
      pySplitOnAux_chunk '\n' e.sequence ['\n'] [] hseqch,
      pySplitOnAux_sep]
    simp [pySplitOnAux]
  have hdecode : decodeText e.to_fasta
      = Entry.new e.sequence (some ('>' :: List.intercalate (str " ") (fieldsOf e))) := by
    simp only [decodeText]
    rw [hsplit]
    rfl
  rw [hdecode]
  obtain ⟨d, hd, hdseq, hdprops⟩ :=
    EntryNew_spec e.sequence (List.intercalate (str " ") (fieldsOf e))
  refine ⟨d, hd, hdseq, ?_⟩
  intro i hi65 hi1
  rw [hdprops i]
  by_cases hi2 : i = 2
  · rw [if_pos hi2, hi2, hseq]
  · rw [if_neg hi2]
    rw [pySplit_intercalate (fieldsOf e) hfields]
    rw [if_pos (⟨hi1, by rw [fieldsOf_length]; exact hi65⟩
      : 1 ≤ i ∧ i ≤ (fieldsOf e).length)]
    rw [getD_fieldsOf e (i - 1) (by omega), show i - 1 + 1 = i from by omega]
    exact piecesOf_fieldStr (e.properties i)
      (fun v hv => (hvals i hi65 hi1 v hv).1)
      (fun v hv c hc => ((hvals i hi65 hi1 v hv).2 c hc).1)

theorem c1_roundtrip_witness :
    ∃ d, decodeText goodEntry.to_fasta = .ok d ∧ d.sequence = goodEntry.sequence
      ∧ ∀ i, i ≤ 65 → 1 ≤ i → d.properties i = goodEntry.properties i :=
  c1_roundtrip goodEntry (by decide) (by decide)
